import Mathlib

/-!
Verification development for the JupyterChat widget
(`src/jupyterchat/chat.py`).

The development shallowly embeds the data model (`ThreadItem`) and the
streaming-event reducer (`ChatDisplay.process_message`) as pure Lean
functions:

* a `ThreadItem` is a record of sender, accumulated text and optional
  tool name; its widget (a display artefact) is not modelled;
* the fallible `ThreadItem` constructor and sender setter return
  `Except PyErr _`, mirroring the `ValueError` raised for unknown
  senders;
* `ChatDisplay.process_message`'s loop over stream events becomes a
  recursion `processEvents` over a list of discriminated events; the
  mutable `current_message` reference becomes an index into the thread
  list; `content[-1]` on an empty list becomes an `IndexError` value;
* `markdown2.markdown` is an external library; the embedding models the
  exact string handed to it (`ThreadItem.textForMarkdown`), which is
  where the fence-repair logic of `ThreadItem.html` lives.
-/

namespace JupyterChat

/-- Python truthiness of an optional string: `None` and `""` are falsy,
any other string is truthy.  Used for `if tool_name:` in the source. -/
def pyTruthy : Option String → Bool
  | none => false
  | some s => !s.isEmpty

/-- Python `str.count(pat)`: non-overlapping occurrences of `pat`,
scanning left to right.  `skip` counts characters still to be consumed
before matching may resume (after a match, the rest of the matched
pattern is skipped).  Only used with non-empty patterns. -/
def countSkip (pat : List Char) (skip : Nat) : List Char → Nat
  | [] => 0
  | c :: rest =>
    match skip with
    | n + 1 => countSkip pat n rest
    | 0 =>
      if pat.isPrefixOf (c :: rest) then
        1 + countSkip pat (pat.length - 1) rest
      else
        countSkip pat 0 rest

/-- Python `s.count(pat)` on strings (non-overlapping substring count). -/
def pyCount (pat s : String) : Nat :=
  countSkip pat.toList 0 s.toList

/-- The `_LABEL_COLOURS` dict from the source: the four recognized
sender roles and their label colours. -/
def LABEL_COLOURS : List (String × String) :=
  [("user", "green"), ("system", "red"), ("agent", "blue"), ("tool", "orange")]

/-- `sender in _LABEL_COLOURS`: membership among the dict keys. -/
def validSender (s : String) : Bool :=
  (LABEL_COLOURS.map Prod.fst).contains s

/-- Python error values the embedded code can raise. -/
inductive PyErr where
  | valueError (msg : String)
  | indexError
  deriving DecidableEq, Repr

/-- One displayed message: sender role, accumulated text, optional tool
name.  The attached HTML widget is a display artefact and not modelled. -/
structure ThreadItem where
  sender : String
  text : String
  toolName : Option String
  deriving DecidableEq, Repr

/-- `ThreadItem.__init__`: validates the sender against `_LABEL_COLOURS`
before any field is assigned, raising `ValueError` otherwise. -/
def mkThreadItem (text : String) (sender : String)
    (toolName : Option String := none) : Except PyErr ThreadItem :=
  if validSender sender then
    .ok { sender := sender, text := text, toolName := toolName }
  else
    .error (.valueError ("Unknown sender: " ++ sender))

/-- The `sender` property setter: same validation as the constructor. -/
def ThreadItem.setSender (item : ThreadItem) (s : String) :
    Except PyErr ThreadItem :=
  if validSender s then
    .ok { item with sender := s }
  else
    .error (.valueError ("Unknown sender: " ++ s))

/-- `ThreadItem.update`: replaces the text wholesale; the tool name is
replaced only when the argument is truthy (`if tool_name:`). -/
def ThreadItem.update (item : ThreadItem) (text : String)
    (toolName : Option String := none) : ThreadItem :=
  { item with
    text := text
    toolName := if pyTruthy toolName then toolName else item.toolName }

/-- `ThreadItem.append_text`: concatenates onto the text; the tool name
is replaced only when the argument is truthy (`if tool_name:`). -/
def ThreadItem.append_text (item : ThreadItem) (text : String)
    (toolName : Option String := none) : ThreadItem :=
  { item with
    text := item.text ++ text
    toolName := if pyTruthy toolName then toolName else item.toolName }

/-- The string `ThreadItem.html` passes to `markdown2.markdown`: tool
items are wrapped as a labeled JSON code block; for all other senders
the source counts occurrences of a newline followed by a triple-backtick
fence and appends a closing fence when that count is odd
(`text.count("\n" + three backticks) % 2`). -/
def ThreadItem.textForMarkdown (item : ThreadItem) : String :=
  if item.sender == "tool" then
    let name := if pyTruthy item.toolName then item.toolName.getD "???" else "???"
    "### Tool use for: `" ++ name ++ "`\n```json\n" ++ item.text ++ "\n```\n"
  else
    item.text ++ (if pyCount "\n```" item.text % 2 ≠ 0 then "\n```\n" else "")

/-- One content part of a token or final-output payload: a text
fragment (`c['type'] == "text"`, carrying `c['text']`), a tool-call
fragment (`c['type'] == "tool_use"`, with optional `name` and optional
`input`), or anything else (no recognized `type` key), which the
reducer ignores. -/
inductive ContentPart where
  | text (t : String)
  | toolUse (name : Option String) (input : Option String)
  | other
  deriving DecidableEq, Repr

/-- One discriminated event from `app.astream_events`, keyed by
`event['event']`. -/
inductive StreamEvent where
  | chatModelStart
  | chatModelStream (content : List ContentPart)
  | chatModelEnd (content : List ContentPart)
  | otherEvent (name : String)
  deriving DecidableEq, Repr

/-- The reducer state inside `process_message`: the thread-item list and
the nullable `current_message` reference, modelled as an index into the
list (Python mutates through an object reference; in every reachable
state the reference is the last list element). -/
structure ChatState where
  threadItems : List ThreadItem
  currentMessage : Option Nat
  deriving DecidableEq, Repr

/-- Replace the element at an index by `f` of it (identity out of
range): the pure counterpart of mutating a list element through a
reference. -/
def listModify (f : ThreadItem → ThreadItem) : Nat → List ThreadItem → List ThreadItem
  | _, [] => []
  | 0, a :: as => f a :: as
  | n + 1, a :: as => a :: listModify f n as

/-- `ChatDisplay._push_new_message`: construct a `ThreadItem` (with
validation) and append it; the reducer then makes it current, so the
new state's `currentMessage` is the appended item's index. -/
def pushNewMessage (st : ChatState) (text : String) (sender : String)
    (toolName : Option String := none) : Except PyErr ChatState :=
  match mkThreadItem text sender toolName with
  | .error e => .error e
  | .ok item =>
      .ok { threadItems := st.threadItems ++ [item]
            currentMessage := some st.threadItems.length }

/-- Apply `f` to the current item (mutation through the
`current_message` reference). -/
def modifyCurrent (st : ChatState) (f : ThreadItem → ThreadItem) : ChatState :=
  match st.currentMessage with
  | none => st
  | some i => { st with threadItems := listModify f i st.threadItems }

/-- `current_message is None or current_message.sender != role`. -/
def currentIsNot (st : ChatState) (role : String) : Bool :=
  match st.currentMessage with
  | none => true
  | some i =>
    match st.threadItems.get? i with
    | none => true
    | some item => item.sender != role

/-- The body of the `for c in content:` loop of the
`on_chat_model_stream` branch, for one content part. -/
def processStreamPart (st : ChatState) (c : ContentPart) : Except PyErr ChatState :=
  match c with
  | .text t =>
    match (if currentIsNot st "agent" then pushNewMessage st "" "agent" else .ok st) with
    | .error e => .error e
    | .ok st' => .ok (modifyCurrent st' (fun item => item.append_text t))
  | .toolUse name input =>
    match (if currentIsNot st "tool" then pushNewMessage st "" "tool" name else .ok st) with
    | .error e => .error e
    | .ok st' =>
      match input with
      | none => .ok st'
      | some inp => .ok (modifyCurrent st' (fun item => item.append_text inp name))
  | .other => .ok st

/-- Process the list of content parts of one `on_chat_model_stream`
event, in order, stopping at the first raised error. -/
def processStreamParts (st : ChatState) : List ContentPart → Except PyErr ChatState
  | [] => .ok st
  | c :: rest =>
    match processStreamPart st c with
    | .error e => .error e
    | .ok st' => processStreamParts st' rest

/-- The `on_chat_model_end` branch applied to the last content part
`c = content[-1]` of the final output. -/
def processEndPart (st : ChatState) (c : ContentPart) : Except PyErr ChatState :=
  match c with
  | .text t =>
    match (if currentIsNot st "agent" then pushNewMessage st "" "agent" else .ok st) with
    | .error e => .error e
    | .ok st' => .ok (modifyCurrent st' (fun item => item.update t))
  | .toolUse name input =>
    match input with
    | none => .ok st
    | some inp =>
      match (if currentIsNot st "tool" then pushNewMessage st "" "tool" name else .ok st) with
      | .error e => .error e
      | .ok st' => .ok (modifyCurrent st' (fun item => item.update inp name))
  | .other => .ok st

/-- One iteration of the `async for event in stream:` loop of
`ChatDisplay.process_message` (status-label updates are display
artefacts and not modelled). -/
def processEvent (st : ChatState) (ev : StreamEvent) : Except PyErr ChatState :=
  match ev with
  | .chatModelStart => .ok { st with currentMessage := none }
  | .chatModelStream content => processStreamParts st content
  | .chatModelEnd content =>
    match content.getLast? with
    | none => .error .indexError
    | some c => processEndPart st c
  | .otherEvent _ => .ok st

/-- The whole event loop of `ChatDisplay.process_message`: fold the
events in arrival order, aborting at the first raised error (which
kills the streaming task). -/
def processEvents (st : ChatState) : List StreamEvent → Except PyErr ChatState
  | [] => .ok st
  | ev :: rest =>
    match processEvent st ev with
    | .error e => .error e
    | .ok st' => processEvents st' rest

/-! Helper lemmas about the embedding. -/

theorem validSender_iff (s : String) :
    validSender s = true ↔ (s = "user" ∨ s = "system" ∨ s = "agent" ∨ s = "tool") := by
  simp [validSender, LABEL_COLOURS, List.contains, List.elem_iff]

theorem validSender_agent : validSender "agent" = true := by decide

theorem validSender_tool : validSender "tool" = true := by decide

theorem pushNewMessage_ok (st : ChatState) (text sender : String)
    (toolName : Option String) (h : validSender sender = true) :
    pushNewMessage st text sender toolName =
      .ok { threadItems := st.threadItems ++ [⟨sender, text, toolName⟩]
            currentMessage := some st.threadItems.length } := by
  simp [pushNewMessage, mkThreadItem, h]

theorem listModify_concat (f : ThreadItem → ThreadItem) (l : List ThreadItem)
    (a : ThreadItem) : listModify f l.length (l ++ [a]) = l ++ [f a] := by
  induction l with
  | nil => rfl
  | cons x xs ih => simp [listModify, ih]

theorem get?_concat (l : List ThreadItem) (a : ThreadItem) :
    (l ++ [a]).get? l.length = some a := by
  induction l with
  | nil => rfl
  | cons x xs ih => simp [ih]

theorem currentIsNot_concat (l : List ThreadItem) (a : ThreadItem) (role : String) :
    currentIsNot ⟨l ++ [a], some l.length⟩ role = (a.sender != role) := by
  simp [currentIsNot, get?_concat]

theorem modifyCurrent_concat (l : List ThreadItem) (a : ThreadItem)
    (f : ThreadItem → ThreadItem) :
    modifyCurrent ⟨l ++ [a], some l.length⟩ f = ⟨l ++ [f a], some l.length⟩ := by
  simp [modifyCurrent, listModify_concat]

theorem processEndPart_ok (st : ChatState) (c : ContentPart) :
    ∃ st', processEndPart st c = .ok st' := by
  cases c with
  | text t =>
    cases hb : currentIsNot st "agent" <;>
      simp [processEndPart, hb, pushNewMessage_ok, validSender_agent]
  | toolUse name input =>
    cases input with
    | none => exact ⟨st, rfl⟩
    | some inp =>
      cases hb : currentIsNot st "tool" <;>
        simp [processEndPart, hb, pushNewMessage_ok, validSender_tool]
  | other => exact ⟨st, rfl⟩

theorem processEvents_nil (st : ChatState) : processEvents st [] = .ok st := rfl

theorem processEvents_cons_ok {st st' : ChatState} {ev : StreamEvent}
    {rest : List StreamEvent} (h : processEvent st ev = .ok st') :
    processEvents st (ev :: rest) = processEvents st' rest := by
  simp [processEvents, h]

theorem processStreamParts_cons_ok {st st' : ChatState} {c : ContentPart}
    {rest : List ContentPart} (h : processStreamPart st c = .ok st') :
    processStreamParts st (c :: rest) = processStreamParts st' rest := by
  simp [processStreamParts, h]

theorem processStreamPart_text_fresh (st : ChatState) (t : String)
    (h : currentIsNot st "agent" = true) :
    processStreamPart st (.text t) =
      .ok { threadItems := st.threadItems ++ [⟨"agent", t, none⟩]
            currentMessage := some st.threadItems.length } := by
  rw [processStreamPart, h]
  rw [if_pos rfl, pushNewMessage_ok st "" "agent" none validSender_agent]
  simp only [modifyCurrent_concat]
  simp [ThreadItem.append_text, pyTruthy]

theorem processStreamPart_text_cont (l : List ThreadItem) (a : ThreadItem)
    (t : String) (h : a.sender = "agent") :
    processStreamPart ⟨l ++ [a], some l.length⟩ (.text t) =
      .ok { threadItems := l ++ [a.append_text t]
            currentMessage := some l.length } := by
  have hc : currentIsNot ⟨l ++ [a], some l.length⟩ "agent" = false := by
    rw [currentIsNot_concat, h]
    rfl
  rw [processStreamPart, hc]
  rw [if_neg (by simp)]
  simp only [modifyCurrent_concat]

theorem processStreamPart_tool_fresh (st : ChatState)
    (name input : Option String) (h : currentIsNot st "tool" = true) :
    processStreamPart st (.toolUse name input) =
      .ok { threadItems := st.threadItems ++ [⟨"tool", input.getD "", name⟩]
            currentMessage := some st.threadItems.length } := by
  rw [processStreamPart, h]
  rw [if_pos rfl, pushNewMessage_ok st "" "tool" name validSender_tool]
  cases input with
  | none => rfl
  | some inp =>
    simp only [modifyCurrent_concat]
    cases name with
    | none => simp [ThreadItem.append_text, pyTruthy]
    | some n =>
      by_cases hn : n = "" <;>
        simp [ThreadItem.append_text, pyTruthy, hn, String.isEmpty_iff]

theorem processEndPart_text_fresh (st : ChatState) (t : String)
    (h : currentIsNot st "agent" = true) :
    processEndPart st (.text t) =
      .ok { threadItems := st.threadItems ++ [⟨"agent", t, none⟩]
            currentMessage := some st.threadItems.length } := by
  rw [processEndPart, h]
  rw [if_pos rfl, pushNewMessage_ok st "" "agent" none validSender_agent]
  simp only [modifyCurrent_concat]
  simp [ThreadItem.update, pyTruthy]

theorem processEndPart_text_cont (l : List ThreadItem) (a : ThreadItem)
    (t : String) (h : a.sender = "agent") :
    processEndPart ⟨l ++ [a], some l.length⟩ (.text t) =
      .ok { threadItems := l ++ [a.update t]
            currentMessage := some l.length } := by
  have hc : currentIsNot ⟨l ++ [a], some l.length⟩ "agent" = false := by
    rw [currentIsNot_concat, h]
    rfl
  rw [processEndPart, hc]
  rw [if_neg (by simp)]
  simp only [modifyCurrent_concat]

/-! Claims. -/

/-- Claim C2 as the spec states it: for a non-tool item, a closing fence
is appended to the text handed to markdown conversion exactly when the
number of triple-backtick fence markers in the text is odd. -/
def fenceClaimAt (item : ThreadItem) : Prop :=
  item.sender ≠ "tool" →
    item.textForMarkdown =
      if pyCount "```" item.text % 2 = 1 then item.text ++ "\n```\n" else item.text

/-- Claim C2, counterexample: the text consisting of a single
triple-backtick fence marker (at the start of the text, hence not
preceded by a newline) contains exactly one fence marker, yet the code
passes it to markdown conversion unmodified: the source counts
occurrences of newline-plus-fence, not of the fence marker itself. -/
theorem c2_fence_claim_counterexample :
    ¬ fenceClaimAt ⟨"agent", "```", none⟩ := by
  intro h
  exact absurd (h (by decide)) (by decide)

/-- Claim C2, amended: for every non-tool item, the text handed to
markdown conversion gets a closing fence appended exactly when the
number of occurrences of a newline immediately followed by a
triple-backtick fence is odd; otherwise it is passed unmodified. -/
theorem c2_amended_fence_repair (item : ThreadItem) (h : item.sender ≠ "tool") :
    item.textForMarkdown =
      if Odd (pyCount "\n```" item.text) then item.text ++ "\n```\n"
      else item.text := by
  have hs : (item.sender == "tool") = false := by
    simpa using h
  rcases Nat.even_or_odd (pyCount "\n```" item.text) with he | ho
  · have h0 : pyCount "\n```" item.text % 2 = 0 := Nat.even_iff.mp he
    simp [ThreadItem.textForMarkdown, hs, h0, Nat.odd_iff]
  · have h1 : pyCount "\n```" item.text % 2 = 1 := Nat.odd_iff.mp ho
    simp [ThreadItem.textForMarkdown, hs, h1, Nat.odd_iff]

/-- Claim C2, amended, witness at a concrete input: "x" followed by a
newline-preceded open fence gets the closing fence appended. -/
theorem c2_amended_fence_repair_witness :
    (ThreadItem.mk "agent" "x\n```" none).textForMarkdown =
      if Odd (pyCount "\n```" "x\n```") then "x\n```" ++ "\n```\n"
      else "x\n```" :=
  c2_amended_fence_repair ⟨"agent", "x\n```", none⟩ (by decide)

/-- Claim C3: constructing a `ThreadItem` and setting its sender succeed
exactly for the four recognized roles, and fail with the
invalid-sender `ValueError` for every other value, with no fields
assigned (the `Except` result carries no item). -/
theorem c3_sender_validation (text : String) (tn : Option String)
    (s : String) (item : ThreadItem) :
    (mkThreadItem text s tn =
      if s = "user" ∨ s = "system" ∨ s = "agent" ∨ s = "tool"
      then Except.ok ⟨s, text, tn⟩
      else Except.error (PyErr.valueError ("Unknown sender: " ++ s)))
    ∧ (item.setSender s =
      if s = "user" ∨ s = "system" ∨ s = "agent" ∨ s = "tool"
      then Except.ok { item with sender := s }
      else Except.error (PyErr.valueError ("Unknown sender: " ++ s))) := by
  by_cases h : s = "user" ∨ s = "system" ∨ s = "agent" ∨ s = "tool"
  · have hv : validSender s = true := (validSender_iff s).mpr h
    simp [mkThreadItem, ThreadItem.setSender, hv, h]
  · have hv : validSender s = false := by
      cases hb : validSender s
      · rfl
      · exact absurd ((validSender_iff s).mp hb) h
    simp [mkThreadItem, ThreadItem.setSender, hv, h]

/-- Claim C6: the turn-end branch consults only the last content part of
the final output; the result of processing a turn-end event is a
function of that last part alone, so earlier parts produce no thread
mutation. -/
theorem c6_only_last_part (st : ChatState) (parts : List ContentPart)
    (c : ContentPart) :
    processEvent st (.chatModelEnd (parts ++ [c])) = processEndPart st c := by
  simp [processEvent, List.getLast?_concat]

/-- Claim C7, counterexample: `update` with the provided tool name `""`
does not replace the stored tool name (Python `if tool_name:` is a
truthiness test, and the empty string is falsy). -/
theorem c7_toolname_counterexample :
    ((ThreadItem.mk "tool" "x" (some "t")).update "y" (some "")).toolName
        = some "t"
    ∧ ((ThreadItem.mk "tool" "x" (some "t")).update "y" (some "")).toolName
        ≠ some "" := by
  decide

/-- Claim C7, amended: `update` replaces the text wholesale and
`append_text` concatenates; the stored tool name is replaced exactly
when the provided tool name is truthy (present and non-empty), and is
left unchanged when the argument is absent or empty. -/
theorem c7_amended_update_append (item : ThreadItem) (t : String)
    (tn : Option String) :
    (item.update t tn).text = t
    ∧ (item.append_text t tn).text = item.text ++ t
    ∧ (item.update t tn).toolName =
        (match tn with
         | none => item.toolName
         | some s => if s = "" then item.toolName else some s)
    ∧ (item.append_text t tn).toolName =
        (match tn with
         | none => item.toolName
         | some s => if s = "" then item.toolName else some s) := by
  refine ⟨rfl, rfl, ?_, ?_⟩ <;>
    cases tn with
    | none => rfl
    | some s =>
      by_cases hs : s = "" <;>
        simp [ThreadItem.update, ThreadItem.append_text, pyTruthy, hs,
          String.isEmpty_iff]

/-- Claim C8: `append_text` is associative over its text argument:
appending `a` then `b` yields the same item as appending `a ++ b` in
one call. -/
theorem c8_append_text_assoc (item : ThreadItem) (a b : String) :
    (item.append_text a).append_text b = item.append_text (a ++ b) := by
  simp [ThreadItem.append_text, pyTruthy, String.append_assoc]

/-- Claim C10: a turn-end event whose final output content list is empty
makes `content[-1]` raise `IndexError`, aborting the stream iteration
(whatever events follow) before any thread mutation; with at least one
content part the turn-end branch always succeeds. -/
theorem c10_empty_final_output :
    (∀ (st : ChatState) (rest : List StreamEvent),
        processEvents st (.chatModelEnd [] :: rest) = .error .indexError)
    ∧ (∀ (st : ChatState) (parts : List ContentPart) (c : ContentPart),
        ∃ st', processEvent st (.chatModelEnd (parts ++ [c])) = .ok st') := by
  constructor
  · intro st rest
    simp [processEvents, processEvent]
  · intro st parts c
    have hlast : processEvent st (.chatModelEnd (parts ++ [c])) = processEndPart st c := by
      simp [processEvent, List.getLast?_concat]
    rw [hlast]
    exact processEndPart_ok st c

/-- Claim C1: starting from any thread with no current item, the event
sequence turn-start, token with text part "ab", turn-end with final
text "abc" produces exactly one new agent item whose text is the final
payload "abc": the turn-end branch wholesale-replaces the accumulated
partial text. -/
theorem c1_turn_end_overwrite (thread : List ThreadItem) :
    processEvents ⟨thread, none⟩
      [.chatModelStart, .chatModelStream [.text "ab"],
       .chatModelEnd [.text "abc"]] =
      .ok { threadItems := thread ++ [⟨"agent", "abc", none⟩]
            currentMessage := some thread.length } := by
  have hstart : processEvent (⟨thread, none⟩ : ChatState) .chatModelStart =
      .ok ⟨thread, none⟩ := rfl
  have hstream : processEvent (⟨thread, none⟩ : ChatState)
      (.chatModelStream [.text "ab"]) =
      .ok ⟨thread ++ [⟨"agent", "ab", none⟩], some thread.length⟩ := by
    show processStreamParts _ _ = _
    rw [processStreamParts_cons_ok (processStreamPart_text_fresh ⟨thread, none⟩ "ab" rfl)]
    rfl
  have hend : processEvent
      (⟨thread ++ [⟨"agent", "ab", none⟩], some thread.length⟩ : ChatState)
      (.chatModelEnd [.text "abc"]) =
      .ok ⟨thread ++ [⟨"agent", "abc", none⟩], some thread.length⟩ := by
    show processEndPart _ (.text "abc") = _
    rw [processEndPart_text_cont thread ⟨"agent", "ab", none⟩ "abc" rfl]
    rfl
  rw [processEvents_cons_ok hstart, processEvents_cons_ok hstream,
    processEvents_cons_ok hend, processEvents_nil]

/-- Claim C4: a turn-start event arriving between two text token events
resets the current item, so the two tokens land in two separate agent
items rather than accumulating into one. -/
theorem c4_turn_start_reset (thread : List ThreadItem) :
    processEvents ⟨thread, none⟩
      [.chatModelStream [.text "a"], .chatModelStart,
       .chatModelStream [.text "b"]] =
      .ok { threadItems := thread ++ [⟨"agent", "a", none⟩, ⟨"agent", "b", none⟩]
            currentMessage := some (thread.length + 1) } := by
  have h1 : processEvent (⟨thread, none⟩ : ChatState)
      (.chatModelStream [.text "a"]) =
      .ok ⟨thread ++ [⟨"agent", "a", none⟩], some thread.length⟩ := by
    show processStreamParts _ _ = _
    rw [processStreamParts_cons_ok (processStreamPart_text_fresh ⟨thread, none⟩ "a" rfl)]
    rfl
  have h2 : processEvent
      (⟨thread ++ [⟨"agent", "a", none⟩], some thread.length⟩ : ChatState)
      .chatModelStart =
      .ok ⟨thread ++ [⟨"agent", "a", none⟩], none⟩ := rfl
  have h3 : processEvent (⟨thread ++ [⟨"agent", "a", none⟩], none⟩ : ChatState)
      (.chatModelStream [.text "b"]) =
      .ok ⟨(thread ++ [ThreadItem.mk "agent" "a" none]) ++ [ThreadItem.mk "agent" "b" none],
           some (thread ++ [ThreadItem.mk "agent" "a" none]).length⟩ := by
    show processStreamParts _ _ = _
    rw [processStreamParts_cons_ok
          (processStreamPart_text_fresh
            ⟨thread ++ [ThreadItem.mk "agent" "a" none], none⟩ "b" rfl)]
    rfl
  rw [processEvents_cons_ok h1, processEvents_cons_ok h2, processEvents_cons_ok h3,
    processEvents_nil]
  simp

/-- Claim C5: one token event carrying a text part followed by a
tool-call part, arriving when no current item matches either role,
appends exactly two thread items: one agent item with the text and one
tool item with the tool input and name. -/
theorem c5_role_switch (st : ChatState) (t : String) (name input : Option String)
    (hA : currentIsNot st "agent" = true) (_hT : currentIsNot st "tool" = true) :
    processEvent st (.chatModelStream [.text t, .toolUse name input]) =
      .ok { threadItems := st.threadItems ++
              [⟨"agent", t, none⟩, ⟨"tool", input.getD "", name⟩]
            currentMessage := some (st.threadItems.length + 1) } := by
  have h1 := processStreamPart_text_fresh st t hA
  have h2 := processStreamPart_tool_fresh
    ⟨st.threadItems ++ [⟨"agent", t, none⟩], some st.threadItems.length⟩
    name input (by rw [currentIsNot_concat]; rfl)
  show processStreamParts _ _ = _
  rw [processStreamParts_cons_ok h1, processStreamParts_cons_ok h2,
    processStreamParts]
  simp

/-- Claim C5, witness at a concrete input. -/
theorem c5_role_switch_witness :
    processEvent ⟨[], none⟩
      (.chatModelStream [.text "hi", .toolUse (some "f") (some "x")]) =
      .ok { threadItems := [⟨"agent", "hi", none⟩, ⟨"tool", "x", some "f"⟩]
            currentMessage := some 1 } :=
  c5_role_switch ⟨[], none⟩ "hi" (some "f") (some "x") rfl rfl

/-- The reducer invariant: the `current_message` reference, when set,
denotes the last element of the thread list.  It holds initially
(`current_message = None`) and is preserved by every event. -/
def currentOk (st : ChatState) : Prop :=
  match st.currentMessage with
  | none => True
  | some i => i + 1 = st.threadItems.length

/-- Claim C9 as stated, for one processed event: the resulting thread
list is the prior list unchanged, or with its last element mutated in
place, or with exactly one new item appended at the end. -/
def c9ClaimStep (st st' : ChatState) : Prop :=
  st'.threadItems = st.threadItems
  ∨ (∃ x, st'.threadItems = st.threadItems.dropLast ++ [x])
  ∨ (∃ item, st'.threadItems = st.threadItems ++ [item])

/-- The amended per-event relation: no thread item is removed (the list
only grows), and every element other than the prior last one is left
unchanged. -/
def appendOnlyStep (st st' : ChatState) : Prop :=
  st.threadItems.length ≤ st'.threadItems.length
  ∧ ∀ i, i + 1 < st.threadItems.length →
      st'.threadItems.get? i = st.threadItems.get? i

theorem appendOnlyStep_refl (st : ChatState) : appendOnlyStep st st :=
  ⟨Nat.le_refl _, fun _ _ => rfl⟩

theorem appendOnlyStep_trans {a b c : ChatState} (h1 : appendOnlyStep a b)
    (h2 : appendOnlyStep b c) : appendOnlyStep a c :=
  ⟨Nat.le_trans h1.1 h2.1,
   fun i hi => (h2.2 i (Nat.lt_of_lt_of_le hi h1.1)).trans (h1.2 i hi)⟩

theorem listModify_length (f : ThreadItem → ThreadItem) (n : Nat)
    (l : List ThreadItem) : (listModify f n l).length = l.length := by
  induction l generalizing n with
  | nil => cases n <;> rfl
  | cons x xs ih =>
    cases n with
    | zero => rfl
    | succ m => simp [listModify, ih]

theorem get?_append_left (l l' : List ThreadItem) (i : Nat)
    (h : i < l.length) : (l ++ l').get? i = l.get? i := by
  induction l generalizing i with
  | nil => exact absurd h (by simp)
  | cons x xs ih =>
    cases i with
    | zero => rfl
    | succ j => exact ih j (by simpa using h)

theorem get?_listModify_ne (f : ThreadItem → ThreadItem) (j : Nat)
    (l : List ThreadItem) (i : Nat) (h : i ≠ j) :
    (listModify f j l).get? i = l.get? i := by
  induction l generalizing i j with
  | nil => cases j <;> rfl
  | cons x xs ih =>
    cases j with
    | zero =>
      cases i with
      | zero => exact absurd rfl h
      | succ k => rfl
    | succ m =>
      cases i with
      | zero => rfl
      | succ k => exact ih m k (by omega)

theorem appendOnlyStep_push (st : ChatState) (item : ThreadItem) :
    appendOnlyStep st
      ⟨st.threadItems ++ [item], some st.threadItems.length⟩ := by
  refine ⟨by simp, fun i hi => ?_⟩
  exact get?_append_left _ _ _ (by omega)

theorem currentOk_push (st : ChatState) (item : ThreadItem) :
    currentOk ⟨st.threadItems ++ [item], some st.threadItems.length⟩ := by
  simp [currentOk]

theorem modifyCurrent_appendOnly (st : ChatState) (f : ThreadItem → ThreadItem)
    (h : currentOk st) :
    appendOnlyStep st (modifyCurrent st f) ∧ currentOk (modifyCurrent st f) := by
  cases hc : st.currentMessage with
  | none =>
    have he : modifyCurrent st f = st := by simp [modifyCurrent, hc]
    rw [he]
    exact ⟨appendOnlyStep_refl st, h⟩
  | some i =>
    have hlen : i + 1 = st.threadItems.length := by
      simpa [currentOk, hc] using h
    have he : modifyCurrent st f =
        { st with threadItems := listModify f i st.threadItems } := by
      simp [modifyCurrent, hc]
    rw [he]
    refine ⟨⟨by simp [listModify_length], fun j hj => ?_⟩, ?_⟩
    · exact get?_listModify_ne f i _ j (by omega)
    · simp [currentOk, hc, listModify_length, hlen]

theorem processStreamPart_appendOnly (st : ChatState) (c : ContentPart)
    (st' : ChatState) (hok : currentOk st)
    (h : processStreamPart st c = .ok st') :
    appendOnlyStep st st' ∧ currentOk st' := by
  cases c with
  | text t =>
    rw [processStreamPart] at h
    cases hb : currentIsNot st "agent" with
    | false =>
      rw [hb] at h
      simp only [Bool.false_eq_true, if_false] at h
      obtain rfl : modifyCurrent st (fun item => item.append_text t) = st' := by
        simpa using h
      exact modifyCurrent_appendOnly st _ hok
    | true =>
      rw [hb] at h
      simp only [if_true, pushNewMessage_ok st "" "agent" none validSender_agent] at h
      obtain rfl : modifyCurrent
          ⟨st.threadItems ++ [⟨"agent", "", none⟩], some st.threadItems.length⟩
          (fun item => item.append_text t) = st' := by
        simpa using h
      have hmid := modifyCurrent_appendOnly
        ⟨st.threadItems ++ [⟨"agent", "", none⟩], some st.threadItems.length⟩
        (fun item => item.append_text t) (currentOk_push st _)
      exact ⟨appendOnlyStep_trans (appendOnlyStep_push st _) hmid.1, hmid.2⟩
  | toolUse name input =>
    rw [processStreamPart] at h
    cases hb : currentIsNot st "tool" with
    | false =>
      rw [hb] at h
      simp only [Bool.false_eq_true, if_false] at h
      cases input with
      | none =>
        obtain rfl : st = st' := by simpa using h
        exact ⟨appendOnlyStep_refl st, hok⟩
      | some inp =>
        obtain rfl : modifyCurrent st (fun item => item.append_text inp name) = st' := by
          simpa using h
        exact modifyCurrent_appendOnly st _ hok
    | true =>
      rw [hb] at h
      simp only [if_true, pushNewMessage_ok st "" "tool" name validSender_tool] at h
      cases input with
      | none =>
        obtain rfl :
            (⟨st.threadItems ++ [⟨"tool", "", name⟩], some st.threadItems.length⟩ :
              ChatState) = st' := by
          simpa using h
        exact ⟨appendOnlyStep_push st _, currentOk_push st _⟩
      | some inp =>
        obtain rfl : modifyCurrent
            ⟨st.threadItems ++ [⟨"tool", "", name⟩], some st.threadItems.length⟩
            (fun item => item.append_text inp name) = st' := by
          simpa using h
        have hmid := modifyCurrent_appendOnly
          ⟨st.threadItems ++ [⟨"tool", "", name⟩], some st.threadItems.length⟩
          (fun item => item.append_text inp name) (currentOk_push st _)
        exact ⟨appendOnlyStep_trans (appendOnlyStep_push st _) hmid.1, hmid.2⟩
  | other =>
    obtain rfl : st = st' := by simpa [processStreamPart] using h
    exact ⟨appendOnlyStep_refl st, hok⟩

theorem processStreamParts_appendOnly (parts : List ContentPart) :
    ∀ (st st' : ChatState), currentOk st →
      processStreamParts st parts = .ok st' →
      appendOnlyStep st st' ∧ currentOk st' := by
  induction parts with
  | nil =>
    intro st st' hok h
    obtain rfl : st = st' := by simpa [processStreamParts] using h
    exact ⟨appendOnlyStep_refl st, hok⟩
  | cons c rest ih =>
    intro st st' hok h
    rw [processStreamParts] at h
    cases hstep : processStreamPart st c with
    | error e => rw [hstep] at h; exact absurd h (by simp)
    | ok st1 =>
      rw [hstep] at h
      have h1 := processStreamPart_appendOnly st c st1 hok hstep
      have h2 := ih st1 st' h1.2 h
      exact ⟨appendOnlyStep_trans h1.1 h2.1, h2.2⟩

theorem processEndPart_appendOnly (st : ChatState) (c : ContentPart)
    (st' : ChatState) (hok : currentOk st)
    (h : processEndPart st c = .ok st') :
    appendOnlyStep st st' ∧ currentOk st' := by
  cases c with
  | text t =>
    rw [processEndPart] at h
    cases hb : currentIsNot st "agent" with
    | false =>
      rw [hb] at h
      simp only [Bool.false_eq_true, if_false] at h
      obtain rfl : modifyCurrent st (fun item => item.update t) = st' := by
        simpa using h
      exact modifyCurrent_appendOnly st _ hok
    | true =>
      rw [hb] at h
      simp only [if_true, pushNewMessage_ok st "" "agent" none validSender_agent] at h
      obtain rfl : modifyCurrent
          ⟨st.threadItems ++ [⟨"agent", "", none⟩], some st.threadItems.length⟩
          (fun item => item.update t) = st' := by
        simpa using h
      have hmid := modifyCurrent_appendOnly
        ⟨st.threadItems ++ [⟨"agent", "", none⟩], some st.threadItems.length⟩
        (fun item => item.update t) (currentOk_push st _)
      exact ⟨appendOnlyStep_trans (appendOnlyStep_push st _) hmid.1, hmid.2⟩
  | toolUse name input =>
    cases input with
    | none =>
      obtain rfl : st = st' := by simpa [processEndPart] using h
      exact ⟨appendOnlyStep_refl st, hok⟩
    | some inp =>
      rw [processEndPart] at h
      cases hb : currentIsNot st "tool" with
      | false =>
        rw [hb] at h
        simp only [Bool.false_eq_true, if_false] at h
        obtain rfl : modifyCurrent st (fun item => item.update inp name) = st' := by
          simpa using h
        exact modifyCurrent_appendOnly st _ hok
      | true =>
        rw [hb] at h
        simp only [if_true, pushNewMessage_ok st "" "tool" name validSender_tool] at h
        obtain rfl : modifyCurrent
            ⟨st.threadItems ++ [⟨"tool", "", name⟩], some st.threadItems.length⟩
            (fun item => item.update inp name) = st' := by
          simpa using h
        have hmid := modifyCurrent_appendOnly
          ⟨st.threadItems ++ [⟨"tool", "", name⟩], some st.threadItems.length⟩
          (fun item => item.update inp name) (currentOk_push st _)
        exact ⟨appendOnlyStep_trans (appendOnlyStep_push st _) hmid.1, hmid.2⟩
  | other =>
    obtain rfl : st = st' := by simpa [processEndPart] using h
    exact ⟨appendOnlyStep_refl st, hok⟩

/-- Claim C9, counterexample: one stream event carrying a text part and
a tool-call part appends two thread items, so the resulting list is
neither the prior list, nor the prior list with its last element
mutated, nor the prior list with exactly one item appended. -/
theorem c9_per_event_counterexample :
    processEvent ⟨[], none⟩
      (.chatModelStream [.text "a", .toolUse (some "f") (some "x")]) =
      .ok ⟨[⟨"agent", "a", none⟩, ⟨"tool", "x", some "f"⟩], some 1⟩
    ∧ ¬ c9ClaimStep ⟨[], none⟩
        ⟨[⟨"agent", "a", none⟩, ⟨"tool", "x", some "f"⟩], some 1⟩ := by
  refine ⟨rfl, ?_⟩
  intro hcl
  rcases hcl with h | ⟨x, hx⟩ | ⟨item, hi⟩
  · simp at h
  · simp at hx
  · simp at hi

/-- Claim C9, amended: starting from any state satisfying the reducer
invariant (the current reference, when set, is the last list element),
each processed event leaves the thread list append-only: no item is
removed, every element other than the prior last one is unchanged (the
prior last may be mutated in place, and any number of new items — zero,
one, or more — may be appended), and the invariant is preserved. -/
theorem c9_amended_append_only (st : ChatState) (ev : StreamEvent)
    (st' : ChatState) (hok : currentOk st)
    (h : processEvent st ev = .ok st') :
    appendOnlyStep st st' ∧ currentOk st' := by
  cases ev with
  | chatModelStart =>
    obtain rfl : ({ st with currentMessage := none } : ChatState) = st' := by
      simpa [processEvent] using h
    exact ⟨⟨Nat.le_refl _, fun _ _ => rfl⟩, trivial⟩
  | chatModelStream content =>
    exact processStreamParts_appendOnly content st st' hok h
  | chatModelEnd content =>
    rw [processEvent] at h
    cases hl : content.getLast? with
    | none => rw [hl] at h; exact absurd h (by simp)
    | some c =>
      rw [hl] at h
      exact processEndPart_appendOnly st c st' hok h
  | otherEvent name =>
    obtain rfl : st = st' := by simpa [processEvent] using h
    exact ⟨appendOnlyStep_refl st, hok⟩

/-- Claim C9, amended, witness: a turn-start event from a one-item
thread with no current item. -/
theorem c9_amended_append_only_witness :
    appendOnlyStep ⟨[⟨"user", "hi", none⟩], none⟩ ⟨[⟨"user", "hi", none⟩], none⟩
    ∧ currentOk ⟨[⟨"user", "hi", none⟩], none⟩ :=
  c9_amended_append_only ⟨[⟨"user", "hi", none⟩], none⟩ .chatModelStart
    ⟨[⟨"user", "hi", none⟩], none⟩ trivial rfl

end JupyterChat
